import Mathlib

/-!
Shallow embedding of the color extraction pipeline of
`src/lib/colorUtils.ts` (rgbToHex, kMeans, extractColors).

Modelling conventions:
* JS numbers are modelled as `ℚ` (channel values are integers from the
  pixel buffer or arithmetic means of integers, so every value that
  actually arises is rational; the spec's §3 calls them real numbers).
* The in-place random shuffle `pixels.sort(() => 0.5 - Math.random())`
  is modelled by an explicit parameter `σ : List RGBColor → List RGBColor`
  standing for the shuffled result; theorems that need it assume `σ`
  returns a permutation (what `Array.prototype.sort` guarantees).
* The assignment step compares `Math.sqrt` of the squared distances; we
  compare the squared distances themselves, which orders pairs
  identically since `sqrt` is strictly monotone (spec §4.2 notes either
  form is acceptable).
-/

namespace ColorExtract

/-- `RGBColor` of colorUtils.ts: `{ r: number; g: number; b: number }`. -/
structure RGBColor where
  r : ℚ
  g : ℚ
  b : ℚ
deriving DecidableEq, Repr

/-- One RGBA pixel of the decoded buffer (four consecutive bytes of
`imageData.data`, values 0..255). -/
structure Pixel where
  r : ℕ
  g : ℕ
  b : ℕ
  a : ℕ
deriving DecidableEq, Repr

/-- The RGB triple read from a buffer pixel (channels are integers there). -/
def toRGB (p : Pixel) : RGBColor := ⟨p.r, p.g, p.b⟩

/-- JS `Math.round` (round half toward +∞) for the nonnegative inputs the
formatter's precondition allows, returned as a natural number. -/
def jsRoundNat (q : ℚ) : ℕ := (Rat.floor (q + 1 / 2)).toNat

/-- JS `Number.prototype.toString(16)` on the nonnegative integer produced
by `Math.round`: base-16 digits, lowercase `a`-`f`. -/
def jsToString16 (n : ℕ) : String := String.mk (Nat.toDigits 16 n)

/-- The zero-padding step of the `toHex` closure:
`hex.length === 1 ? '0' + hex : hex`. -/
def padHex2 (hex : String) : String :=
  if hex.length = 1 then "0" ++ hex else hex

/-- The inner `toHex` closure of `rgbToHex`:
`Math.round(value).toString(16)`, zero-padded to two digits. -/
def toHexChannel (v : ℚ) : String :=
  padHex2 (jsToString16 (jsRoundNat v))

/-- JS `String.prototype.toUpperCase` on the ASCII strings arising here. -/
def jsToUpperCase (s : String) : String := String.mk (s.data.map Char.toUpper)

/-- `rgbToHex` of colorUtils.ts. -/
def rgbToHex (rgb : RGBColor) : String :=
  jsToUpperCase ("#" ++ toHexChannel rgb.r ++ toHexChannel rgb.g ++ toHexChannel rgb.b)

/-- Spec-side formatter (§4.3): one byte as exactly two zero-padded
uppercase hex digits, written directly. -/
def hexDigitUpper (d : ℕ) : Char :=
  if d < 10 then Char.ofNat (48 + d) else Char.ofNat (55 + d)

/-- Spec-side formatter (§4.3): the two-digit uppercase hex image of a byte. -/
def hexByteSpec (n : ℕ) : String := String.mk [hexDigitUpper (n / 16), hexDigitUpper (n % 16)]

/-- Parsing a `#RRGGBB` string back to its three byte fields (§3 round-trip
invariant). -/
def hexDigitVal (c : Char) : ℕ :=
  if c.toNat ≤ 57 then c.toNat - 48 else c.toNat - 55

/-- Parse a 7-character `#RRGGBB` string into the three channel bytes. -/
def parseHexColor (s : String) : Option (ℕ × ℕ × ℕ) :=
  match s.data with
  | ['#', r1, r2, g1, g2, b1, b2] =>
    some (16 * hexDigitVal r1 + hexDigitVal r2,
          16 * hexDigitVal g1 + hexDigitVal g2,
          16 * hexDigitVal b1 + hexDigitVal b2)
  | _ => none

/-! Pixel sampler: the extraction loop of `extractColors` over
`imageData.data` — skip pixels with `a < 255`, keep the first occurrence
of each distinct `(r,g,b)` key. -/

/-- Accumulator loop of the sampling pass; `acc` holds the samples seen so
far in reverse order (the JS code pushes to the end of `pixels`, the set
of keys seen equals the set of members of `acc`). -/
def samplePixelsGo : List Pixel → List RGBColor → List RGBColor
  | [], acc => acc.reverse
  | p :: rest, acc =>
    if p.a < 255 then samplePixelsGo rest acc
    else if toRGB p ∈ acc then samplePixelsGo rest acc
    else samplePixelsGo rest (toRGB p :: acc)

/-- The sample list produced by the pixel-extraction loop of
`extractColors` (lines 157-176 of colorUtils.ts). -/
def samplePixels (data : List Pixel) : List RGBColor := samplePixelsGo data []

/-- Spec-side description of deduplication (§4.1): keep the first
occurrence of each distinct color, drop later duplicates. -/
def distinctFirstOcc : List RGBColor → List RGBColor
  | [] => []
  | c :: rest => c :: distinctFirstOcc (rest.filter fun d => d ≠ c)
termination_by l => l.length
decreasing_by
  exact Nat.lt_succ_of_le (List.length_filter_le _ _)

/-! K-means clustering engine (`kMeans` of colorUtils.ts). -/

/-- Squared Euclidean distance in RGB space.  The source compares
`Math.sqrt` of these quantities; `sqrt` is strictly monotone, so the
comparisons are unchanged. -/
def sqDist (p c : RGBColor) : ℚ :=
  (p.r - c.r) ^ 2 + (p.g - c.g) ^ 2 + (p.b - c.b) ^ 2

/-- JS comparison `distance < minDistance` where `minDistance` starts as
`Infinity` (modelled by `none`). -/
def ltInf (d : ℚ) : Option ℚ → Bool
  | none => true
  | some m => decide (d < m)

/-- The inner centroid scan of the assignment step: running index `i`,
current best index `best` and best distance `bestDist`; a strictly
smaller distance takes over, so the first minimum wins. -/
def nearestAux (p : RGBColor) : List RGBColor → ℕ → ℕ → Option ℚ → ℕ
  | [], _, best, _ => best
  | c :: rest, i, best, bestDist =>
    let d := sqDist p c
    if ltInf d bestDist then nearestAux p rest (i + 1) i (some d)
    else nearestAux p rest (i + 1) best bestDist

/-- Index of the centroid a pixel is assigned to (`clusterIndex` after the
scan; `0` when there are no centroids). -/
def nearestIndex (centroids : List RGBColor) (p : RGBColor) : ℕ :=
  nearestAux p centroids 0 0 none

/-- `clusters[i]` after the assignment step: the pixels assigned to
centroid `i`, in traversal order. -/
def clusterOf (shuffled centroids : List RGBColor) (i : ℕ) : List RGBColor :=
  shuffled.filter fun p => nearestIndex centroids p == i

/-- Arithmetic mean of a cluster, channelwise (the `sum / cluster.length`
computation of the update step). -/
def meanColor (cluster : List RGBColor) : RGBColor :=
  ⟨(cluster.map RGBColor.r).sum / cluster.length,
   (cluster.map RGBColor.g).sum / cluster.length,
   (cluster.map RGBColor.b).sum / cluster.length⟩

/-- One loop iteration's effect on the centroid array: assignment followed
by the update `for` loop, which recomputes `centroids[i]` as the cluster
mean and `continue`s (leaves it unchanged) on an empty cluster. -/
def stepCentroids (shuffled centroids : List RGBColor) : List RGBColor :=
  (List.range centroids.length).map fun i =>
    let cluster := clusterOf shuffled centroids i
    if cluster.isEmpty then centroids.getD i ⟨0, 0, 0⟩ else meanColor cluster

/-- `hasConverged` of colorUtils.ts: false when the lengths differ
(first iteration), otherwise every channel of every centroid moved by
less than 1 against `previousCentroids`. -/
def hasConverged (previous centroids : List RGBColor) : Bool :=
  if previous.length ≠ centroids.length then false
  else (centroids.zip previous).all fun cp =>
    decide (|cp.1.r - cp.2.r| < 1) && decide (|cp.1.g - cp.2.g| < 1) &&
      decide (|cp.1.b - cp.2.b| < 1)

/-- The `while (iterations < maxIterations && !hasConverged())` loop,
with `fuel = maxIterations - iterations` remaining iterations.  Returns
the final centroids together with the number of iterations executed. -/
def kMeansLoop (shuffled : List RGBColor) :
    ℕ → List RGBColor → List RGBColor → List RGBColor × ℕ
  | 0, centroids, _previous => (centroids, 0)
  | fuel + 1, centroids, previous =>
    if hasConverged previous centroids then (centroids, 0)
    else
      let res := kMeansLoop shuffled fuel (stepCentroids shuffled centroids) centroids
      (res.1, res.2 + 1)

/-- `kMeans` of colorUtils.ts.  `σ` stands for the result of the in-place
shuffle `pixels.sort(() => 0.5 - Math.random())`; theorems that need it
assume `σ pixels` is a permutation of `pixels`, which is all
`Array.prototype.sort` guarantees for an inconsistent comparator. -/
def kMeans (σ : List RGBColor → List RGBColor) (pixels : List RGBColor)
    (k : ℕ) (maxIterations : ℕ) : List RGBColor :=
  let shuffled := σ pixels
  (kMeansLoop shuffled maxIterations (shuffled.take k) []).1

/-- Number of loop iterations the same run executes. -/
def kMeansIters (σ : List RGBColor → List RGBColor) (pixels : List RGBColor)
    (k : ℕ) (maxIterations : ℕ) : ℕ :=
  let shuffled := σ pixels
  (kMeansLoop shuffled maxIterations (shuffled.take k) []).2

/-- `extractColors` of colorUtils.ts from the decoded pixel buffer on:
sample, take the degenerate branch when `pixels.length <= colorCount`,
otherwise cluster with the default iteration cap 100 and format. -/
def extractColors (σ : List RGBColor → List RGBColor) (data : List Pixel)
    (colorCount : ℕ) : List String :=
  let pixels := samplePixels data
  if pixels.length ≤ colorCount then pixels.map rgbToHex
  else (kMeans σ pixels colorCount 100).map rgbToHex

/-- All three channels within `[0,255]` (§3's semantic range). -/
def InRange (c : RGBColor) : Prop :=
  0 ≤ c.r ∧ c.r ≤ 255 ∧ 0 ≤ c.g ∧ c.g ≤ 255 ∧ 0 ≤ c.b ∧ c.b ≤ 255

instance (c : RGBColor) : Decidable (InRange c) := by
  unfold InRange; infer_instance

theorem string_ext {a b : String} (h : a.data = b.data) : a = b :=
  congrArg String.mk h

theorem ratFloor_eq_intFloor (q : ℚ) : Rat.floor q = ⌊q⌋ := by
  rw [Rat.floor_def', Rat.floor_def]

theorem jsRoundNat_le {q : ℚ} (h : q ≤ 255) : jsRoundNat q ≤ 255 := by
  unfold jsRoundNat
  rw [ratFloor_eq_intFloor]
  have h2 : ⌊q + 1 / 2⌋ < 256 := by
    rw [Int.floor_lt]
    push_cast
    linarith
  omega

set_option maxRecDepth 20000 in
theorem upperPad_eq :
    ∀ n < 256, (padHex2 (jsToString16 n)).data.map Char.toUpper = (hexByteSpec n).data := by
  decide

theorem hexDigitVal_hexDigitUpper : ∀ d < 16, hexDigitVal (hexDigitUpper d) = d := by decide

theorem rgbToHex_eq (rgb : RGBColor) (h : InRange rgb) :
    rgbToHex rgb =
      "#" ++ hexByteSpec (jsRoundNat rgb.r) ++ hexByteSpec (jsRoundNat rgb.g) ++
        hexByteSpec (jsRoundNat rgb.b) := by
  obtain ⟨-, h2, -, h4, -, h6⟩ := h
  have dr := upperPad_eq (jsRoundNat rgb.r) (by have := jsRoundNat_le h2; omega)
  have dg := upperPad_eq (jsRoundNat rgb.g) (by have := jsRoundNat_le h4; omega)
  have db := upperPad_eq (jsRoundNat rgb.b) (by have := jsRoundNat_le h6; omega)
  apply string_ext
  show (("#" ++ toHexChannel rgb.r ++ toHexChannel rgb.g ++ toHexChannel rgb.b).data.map
      Char.toUpper) = _
  simp only [String.data_append, List.map_append, toHexChannel] at dr dg db ⊢
  rw [dr, dg, db]
  rfl

theorem parseHexColor_append (a b c : ℕ) :
    parseHexColor ("#" ++ hexByteSpec a ++ hexByteSpec b ++ hexByteSpec c) =
      some (16 * hexDigitVal (hexDigitUpper (a / 16)) + hexDigitVal (hexDigitUpper (a % 16)),
            16 * hexDigitVal (hexDigitUpper (b / 16)) + hexDigitVal (hexDigitUpper (b % 16)),
            16 * hexDigitVal (hexDigitUpper (c / 16)) + hexDigitVal (hexDigitUpper (c % 16))) :=
  rfl

/-- C8: every hex string emitted for an in-range centroid, parsed back by
reading its three two-digit hex fields, yields exactly the channelwise
`Math.round` of that centroid. -/
theorem parse_rgbToHex_roundtrip (c : RGBColor) (h : InRange c) :
    parseHexColor (rgbToHex c) = some (jsRoundNat c.r, jsRoundNat c.g, jsRoundNat c.b) := by
  rw [rgbToHex_eq c h, parseHexColor_append]
  obtain ⟨-, h2, -, h4, -, h6⟩ := h
  have br := jsRoundNat_le h2
  have bg := jsRoundNat_le h4
  have bb := jsRoundNat_le h6
  rw [hexDigitVal_hexDigitUpper _ (by omega), hexDigitVal_hexDigitUpper _ (by omega),
    hexDigitVal_hexDigitUpper _ (by omega), hexDigitVal_hexDigitUpper _ (by omega),
    hexDigitVal_hexDigitUpper _ (by omega), hexDigitVal_hexDigitUpper _ (by omega),
    Nat.div_add_mod, Nat.div_add_mod, Nat.div_add_mod]

theorem distinctFirstOcc_nil : distinctFirstOcc [] = [] := by
  rw [distinctFirstOcc]

theorem distinctFirstOcc_cons (x : RGBColor) (rest : List RGBColor) :
    distinctFirstOcc (x :: rest) = x :: distinctFirstOcc (rest.filter fun d => d ≠ x) := by
  rw [distinctFirstOcc]

theorem distinctFirstOcc_mem (l : List RGBColor) (c : RGBColor) :
    c ∈ distinctFirstOcc l ↔ c ∈ l := by
  have H : ∀ (n : ℕ) (l : List RGBColor), l.length ≤ n →
      ∀ c, (c ∈ distinctFirstOcc l ↔ c ∈ l) := by
    intro n
    induction n with
    | zero =>
      intro l hl c
      rw [List.length_eq_zero.1 (Nat.le_zero.1 hl)]
      simp [distinctFirstOcc_nil]
    | succ n ih =>
      intro l hl c
      match l with
      | [] => simp [distinctFirstOcc_nil]
      | x :: rest =>
        rw [distinctFirstOcc_cons]
        have hlen : (rest.filter fun d => d ≠ x).length ≤ n := by
          have := List.length_filter_le (fun d => decide (d ≠ x)) rest
          simp only [List.length_cons] at hl
          omega
        by_cases hc : c = x
        · simp [hc]
        · simp only [List.mem_cons, hc, false_or]
          rw [ih _ hlen c]
          simp [hc]
  exact H l.length l le_rfl c

theorem distinctFirstOcc_nodup (l : List RGBColor) : (distinctFirstOcc l).Nodup := by
  have H : ∀ (n : ℕ) (l : List RGBColor), l.length ≤ n → (distinctFirstOcc l).Nodup := by
    intro n
    induction n with
    | zero =>
      intro l hl
      rw [List.length_eq_zero.1 (Nat.le_zero.1 hl)]
      simp [distinctFirstOcc_nil]
    | succ n ih =>
      intro l hl
      match l with
      | [] => simp [distinctFirstOcc_nil]
      | x :: rest =>
        rw [distinctFirstOcc_cons]
        have hlen : (rest.filter fun d => d ≠ x).length ≤ n := by
          have := List.length_filter_le (fun d => decide (d ≠ x)) rest
          simp only [List.length_cons] at hl
          omega
        refine List.nodup_cons.2 ⟨fun hx => ?_, ih _ hlen⟩
        rw [distinctFirstOcc_mem] at hx
        simp at hx
  exact H l.length l le_rfl

theorem samplePixelsGo_spec (data : List Pixel) (acc : List RGBColor)
    (h : ∀ p ∈ data, p.a ≤ 255) :
    samplePixelsGo data acc =
      acc.reverse ++ distinctFirstOcc
        (((data.filter fun p => p.a == 255).map toRGB).filter fun c => c ∉ acc) := by
  induction data generalizing acc with
  | nil => simp [samplePixelsGo, distinctFirstOcc]
  | cons p rest ih =>
    have hp : p.a ≤ 255 := h p (List.mem_cons_self _ _)
    have hrest : ∀ q ∈ rest, q.a ≤ 255 := fun q hq => h q (List.mem_cons_of_mem _ hq)
    by_cases ha : p.a < 255
    · have hbeq : (p.a == 255) = false := by simp; omega
      rw [samplePixelsGo, if_pos ha, ih _ hrest]
      simp [hbeq]
    · have hbeq : (p.a == 255) = true := by simp; omega
      by_cases hmem : toRGB p ∈ acc
      · rw [samplePixelsGo, if_neg ha, if_pos hmem, ih _ hrest]
        simp [hbeq, hmem]
      · rw [samplePixelsGo, if_neg ha, if_neg hmem, ih _ hrest]
        have hsplit :
            (((rest.filter fun q => q.a == 255).map toRGB).filter
                fun c => c ∉ toRGB p :: acc) =
              (((rest.filter fun q => q.a == 255).map toRGB).filter
                fun c => c ∉ acc).filter fun d => d ≠ toRGB p := by
          rw [List.filter_filter]
          apply List.filter_congr
          intro c _
          by_cases h1 : c ∈ acc <;> by_cases h2 : c = toRGB p <;> simp [h1, h2]
        have h1 : ((p :: rest).filter fun q => q.a == 255) =
            p :: rest.filter fun q => q.a == 255 := by
          simp [List.filter_cons, hbeq]
        have h2 : ((toRGB p :: (rest.filter fun q => q.a == 255).map toRGB).filter
              fun c => c ∉ acc) =
            toRGB p :: ((rest.filter fun q => q.a == 255).map toRGB).filter
              fun c => c ∉ acc := by
          simp [List.filter_cons, hmem]
        rw [hsplit, h1, List.map_cons, h2, distinctFirstOcc_cons, List.reverse_cons]
        simp

theorem samplePixels_eq (data : List Pixel) (h : ∀ p ∈ data, p.a ≤ 255) :
    samplePixels data = distinctFirstOcc ((data.filter fun p => p.a == 255).map toRGB) := by
  have hg := samplePixelsGo_spec data [] h
  simpa [samplePixels] using hg

/-- C2: the sample list is exactly the distinct (r,g,b) triples whose
alpha is 255, first occurrence kept; pixels with alpha < 255 are dropped;
the result has no duplicates; an all-translucent buffer yields an empty
sample set and empty output for every k. -/
theorem samplePixels_postcondition (data : List Pixel) (h : ∀ p ∈ data, p.a ≤ 255) :
    samplePixels data = distinctFirstOcc ((data.filter fun p => p.a == 255).map toRGB) ∧
    (samplePixels data).Nodup ∧
    (∀ c, c ∈ samplePixels data ↔ ∃ p ∈ data, p.a = 255 ∧ toRGB p = c) ∧
    ((∀ p ∈ data, p.a < 255) →
      samplePixels data = [] ∧ ∀ σ k, extractColors σ data k = []) := by
  have he := samplePixels_eq data h
  refine ⟨he, ?_, ?_, ?_⟩
  · rw [he]; exact distinctFirstOcc_nodup _
  · intro c
    rw [he, distinctFirstOcc_mem]
    simp [toRGB]
    constructor
    · rintro ⟨p, ⟨hp, hpa⟩, hrgb⟩
      exact ⟨p, hp, hpa, hrgb⟩
    · rintro ⟨p, hp, hpa, hrgb⟩
      exact ⟨p, ⟨hp, hpa⟩, hrgb⟩
  · intro htr
    have hfil : (data.filter fun p => p.a == 255) = [] := by
      rw [List.filter_eq_nil_iff]
      intro p hp
      have := htr p hp
      simp
      omega
    have hempty : samplePixels data = [] := by
      rw [he, hfil, List.map_nil, distinctFirstOcc_nil]
    refine ⟨hempty, fun σ k => ?_⟩
    unfold extractColors
    rw [hempty]
    simp

theorem stepCentroids_length (shuffled centroids : List RGBColor) :
    (stepCentroids shuffled centroids).length = centroids.length := by
  simp [stepCentroids]

theorem kMeansLoop_length (shuffled : List RGBColor) :
    ∀ (fuel : ℕ) (cs prev : List RGBColor),
      (kMeansLoop shuffled fuel cs prev).1.length = cs.length := by
  intro fuel
  induction fuel with
  | zero => intro cs prev; rfl
  | succ n ih =>
    intro cs prev
    by_cases h : hasConverged prev cs = true
    · simp [kMeansLoop, h]
    · simp only [kMeansLoop, h, if_false, Bool.false_eq_true]
      rw [ih (stepCentroids shuffled cs) cs, stepCentroids_length]

theorem kMeansLoop_iters_le (shuffled : List RGBColor) :
    ∀ (fuel : ℕ) (cs prev : List RGBColor),
      (kMeansLoop shuffled fuel cs prev).2 ≤ fuel := by
  intro fuel
  induction fuel with
  | zero => intro cs prev; exact le_rfl
  | succ n ih =>
    intro cs prev
    by_cases h : hasConverged prev cs = true
    · simp [kMeansLoop, h]
    · simp only [kMeansLoop, h, if_false, Bool.false_eq_true]
      have := ih (stepCentroids shuffled cs) cs
      omega

theorem kMeansLoop_stops_converged (shuffled : List RGBColor) :
    ∀ (fuel : ℕ) (cs prev : List RGBColor),
      (kMeansLoop shuffled fuel cs prev).2 < fuel →
      ∃ prev', hasConverged prev' (kMeansLoop shuffled fuel cs prev).1 = true := by
  intro fuel
  induction fuel with
  | zero => intro cs prev h; omega
  | succ n ih =>
    intro cs prev hlt
    by_cases h : hasConverged prev cs = true
    · refine ⟨prev, ?_⟩
      simpa [kMeansLoop, h] using h
    · simp only [kMeansLoop, h, if_false, Bool.false_eq_true] at hlt ⊢
      exact ih (stepCentroids shuffled cs) cs (by omega)

theorem kMeansLoop_converged (shuffled : List RGBColor) (fuel : ℕ)
    (cs prev : List RGBColor) (h : hasConverged prev cs = true) :
    kMeansLoop shuffled fuel cs prev = (cs, 0) := by
  cases fuel with
  | zero => rfl
  | succ n => simp [kMeansLoop, h]

theorem hasConverged_of_ne_length {prev cur : List RGBColor}
    (h : prev.length ≠ cur.length) : hasConverged prev cur = false := by
  simp [hasConverged, h]

/-- C4: for non-empty samples, k ≥ 1 and maxIterations ≥ 1, the loop
executes at most maxIterations iterations, and when it stops short of
the cap the returned centroids passed the convergence test. -/
theorem kMeans_iteration_bound (σ : List RGBColor → List RGBColor)
    (pixels : List RGBColor) (k maxIterations : ℕ)
    (hne : pixels ≠ []) (hk : 1 ≤ k) (hmax : 1 ≤ maxIterations) :
    kMeansIters σ pixels k maxIterations ≤ maxIterations ∧
    (kMeansIters σ pixels k maxIterations < maxIterations →
      ∃ prev, hasConverged prev (kMeans σ pixels k maxIterations) = true) :=
  ⟨kMeansLoop_iters_le _ _ _ _, fun hlt =>
    kMeansLoop_stops_converged (σ pixels) maxIterations ((σ pixels).take k) [] hlt⟩

theorem hasConverged_iff (prev cur : List RGBColor) :
    hasConverged prev cur = true ↔
      (prev.length = cur.length ∧
        ∀ (i : ℕ) (hc : i < cur.length) (hp : i < prev.length),
          |cur[i].r - prev[i].r| < 1 ∧ |cur[i].g - prev[i].g| < 1 ∧
            |cur[i].b - prev[i].b| < 1) := by
  unfold hasConverged
  by_cases h : prev.length = cur.length
  · rw [if_neg (by simp [h]), List.all_eq_true]
    constructor
    · intro hall
      refine ⟨h, fun i hc hp => ?_⟩
      have hz : i < (cur.zip prev).length := by
        rw [List.length_zip]
        omega
      have := hall ((cur.zip prev)[i]) (List.getElem_mem hz)
      rw [List.getElem_zip] at this
      simp only [Bool.and_eq_true, decide_eq_true_eq] at this
      exact ⟨this.1.1, this.1.2, this.2⟩
    · rintro ⟨-, hall⟩ x hx
      obtain ⟨i, hzi, rfl⟩ := List.mem_iff_getElem.1 hx
      have hzi' := hzi
      rw [List.length_zip] at hzi'
      rw [List.getElem_zip]
      have := hall i (by omega) (by omega)
      simp only [Bool.and_eq_true, decide_eq_true_eq]
      exact ⟨⟨this.1, this.2.1⟩, this.2.2⟩
  · rw [if_pos (by simp [h])]
    simp [h]

theorem kMeans_first_iteration (σ : List RGBColor → List RGBColor)
    (pixels : List RGBColor) (k maxIterations : ℕ)
    (hσ : (σ pixels).length = pixels.length) (hne : pixels ≠ []) (hk : 1 ≤ k)
    (hklt : k < pixels.length) (hmax : 1 ≤ maxIterations) :
    1 ≤ kMeansIters σ pixels k maxIterations := by
  obtain ⟨m, rfl⟩ : ∃ m, maxIterations = m + 1 := ⟨maxIterations - 1, by omega⟩
  have hlen : ((σ pixels).take k).length = k := by
    rw [List.length_take, hσ]
    omega
  have hc : hasConverged [] ((σ pixels).take k) = false := by
    apply hasConverged_of_ne_length
    rw [hlen]
    simp only [List.length_nil]
    omega
  unfold kMeansIters
  simp only [kMeansLoop, hc, if_false, Bool.false_eq_true]
  omega

/-- C5: the convergence test holds exactly when the lengths agree and
every channel of every centroid moved by less than 1 against the previous
iteration's value; and with non-empty samples, |samples| > k ≥ 1 and a
positive iteration cap the loop body runs at least once. -/
theorem hasConverged_semantics :
    (∀ prev cur : List RGBColor, hasConverged prev cur = true ↔
      (prev.length = cur.length ∧
        ∀ (i : ℕ) (hc : i < cur.length) (hp : i < prev.length),
          |cur[i].r - prev[i].r| < 1 ∧ |cur[i].g - prev[i].g| < 1 ∧
            |cur[i].b - prev[i].b| < 1)) ∧
    (∀ (σ : List RGBColor → List RGBColor) (pixels : List RGBColor)
        (k maxIterations : ℕ),
      (σ pixels).length = pixels.length → pixels ≠ [] → 1 ≤ k →
      k < pixels.length → 1 ≤ maxIterations →
      1 ≤ kMeansIters σ pixels k maxIterations) :=
  ⟨hasConverged_iff, kMeans_first_iteration⟩

/-- C10: requesting zero colors on an image with at least one opaque
sample resolves with the empty palette: the degenerate branch is skipped,
clustering starts from an empty centroid list whose convergence check is
already true, so zero iterations run. -/
theorem extractColors_zero_palette (σ : List RGBColor → List RGBColor)
    (data : List Pixel) (h : samplePixels data ≠ []) :
    extractColors σ data 0 = [] ∧
    kMeans σ (samplePixels data) 0 100 = [] ∧
    kMeansIters σ (samplePixels data) 0 100 = 0 ∧
    hasConverged [] ((σ (samplePixels data)).take 0) = true := by
  have hlen : (samplePixels data).length ≠ 0 := by
    simpa [List.length_eq_zero] using h
  have htake : (σ (samplePixels data)).take 0 = [] := List.take_zero _
  have hconv : hasConverged [] [] = true := rfl
  have hloop := kMeansLoop_converged (σ (samplePixels data)) 100 [] [] hconv
  have hkm : kMeans σ (samplePixels data) 0 100 = [] := by
    simp only [kMeans]
    rw [htake, hloop]
  refine ⟨?_, hkm, ?_, ?_⟩
  · unfold extractColors
    rw [if_neg (by omega), hkm]
    rfl
  · simp only [kMeansIters]
    rw [htake, hloop]
  · rw [htake]
    exact hconv

/-- C7: in every update step, a centroid whose cluster received no
samples is left exactly unchanged, while a centroid with a non-empty
cluster is recomputed as that cluster's mean; `stepCentroids` is the
update applied by every loop iteration. -/
theorem stepCentroids_empty_cluster_frame (shuffled centroids : List RGBColor)
    (i : ℕ) (hi : i < centroids.length) :
    (stepCentroids shuffled centroids).length = centroids.length ∧
    (clusterOf shuffled centroids i = [] →
      (stepCentroids shuffled centroids)[i]? = some centroids[i]) ∧
    (clusterOf shuffled centroids i ≠ [] →
      (stepCentroids shuffled centroids)[i]? =
        some (meanColor (clusterOf shuffled centroids i))) := by
  have hrange : (List.range centroids.length)[i]? = some i := by simp [hi]
  refine ⟨stepCentroids_length _ _, ?_, ?_⟩ <;> intro hcl
  · unfold stepCentroids
    rw [List.getElem?_map, hrange]
    simp [hcl, List.getD_eq_getElem _ _ hi, List.getElem?_eq_getElem hi]
  · unfold stepCentroids
    rw [List.getElem?_map, hrange]
    simp [List.isEmpty_iff, hcl]

theorem meanColor_inRange {cluster : List RGBColor} (hne : cluster ≠ [])
    (h : ∀ c ∈ cluster, InRange c) : InRange (meanColor cluster) := by
  have hlen : 0 < (cluster.length : ℚ) := by
    have : 0 < cluster.length := List.length_pos.2 hne
    exact_mod_cast this
  have bound : ∀ f : RGBColor → ℚ, (∀ c ∈ cluster, 0 ≤ f c ∧ f c ≤ 255) →
      0 ≤ (cluster.map f).sum / (cluster.length : ℚ) ∧
        (cluster.map f).sum / (cluster.length : ℚ) ≤ 255 := by
    intro f hf
    constructor
    · apply div_nonneg _ (le_of_lt hlen)
      apply List.sum_nonneg
      intro x hx
      obtain ⟨c, hc, rfl⟩ := List.mem_map.1 hx
      exact (hf c hc).1
    · rw [div_le_iff₀ hlen]
      have hs := List.sum_le_card_nsmul (cluster.map f) 255 ?_
      · rw [List.length_map] at hs
        simpa [nsmul_eq_mul, mul_comm] using hs
      · intro x hx
        obtain ⟨c, hc, rfl⟩ := List.mem_map.1 hx
        exact (hf c hc).2
  obtain ⟨r0, r1⟩ := bound RGBColor.r fun c hc => ⟨(h c hc).1, (h c hc).2.1⟩
  obtain ⟨g0, g1⟩ := bound RGBColor.g fun c hc => ⟨(h c hc).2.2.1, (h c hc).2.2.2.1⟩
  obtain ⟨b0, b1⟩ := bound RGBColor.b fun c hc => ⟨(h c hc).2.2.2.2.1, (h c hc).2.2.2.2.2⟩
  exact ⟨r0, r1, g0, g1, b0, b1⟩

theorem stepCentroids_inRange {shuffled centroids : List RGBColor}
    (hsh : ∀ c ∈ shuffled, InRange c) (hc : ∀ c ∈ centroids, InRange c) :
    ∀ c ∈ stepCentroids shuffled centroids, InRange c := by
  intro c hmem
  unfold stepCentroids at hmem
  obtain ⟨i, hi, rfl⟩ := List.mem_map.1 hmem
  have hilt : i < centroids.length := List.mem_range.1 hi
  by_cases hemp : (clusterOf shuffled centroids i).isEmpty
  · simp only [hemp, if_true]
    rw [List.getD_eq_getElem _ _ hilt]
    exact hc _ (List.getElem_mem hilt)
  · simp only [hemp, if_false, Bool.false_eq_true]
    apply meanColor_inRange
    · simpa [List.isEmpty_iff] using hemp
    · intro x hx
      exact hsh x (List.mem_of_mem_filter hx)

theorem kMeansLoop_inRange (shuffled : List RGBColor)
    (hsh : ∀ c ∈ shuffled, InRange c) :
    ∀ (fuel : ℕ) (cs prev : List RGBColor), (∀ c ∈ cs, InRange c) →
      ∀ c ∈ (kMeansLoop shuffled fuel cs prev).1, InRange c := by
  intro fuel
  induction fuel with
  | zero => intro cs prev hcs c hc; exact hcs c hc
  | succ n ih =>
    intro cs prev hcs
    by_cases h : hasConverged prev cs = true
    · simpa [kMeansLoop, h] using hcs
    · simp only [kMeansLoop, h, if_false, Bool.false_eq_true]
      exact ih (stepCentroids shuffled cs) cs (stepCentroids_inRange hsh hcs)

/-- C6: when every input sample's channels lie in [0,255], every centroid
returned by `kMeans` has all three channels in [0,255]; the invariant
holds for the initial centroids and is preserved by every iteration. -/
theorem kMeans_centroid_range (σ : List RGBColor → List RGBColor)
    (pixels : List RGBColor) (k maxIterations : ℕ)
    (hσ : (σ pixels).Perm pixels) (hin : ∀ c ∈ pixels, InRange c) :
    ∀ c ∈ kMeans σ pixels k maxIterations, InRange c := by
  have hsh : ∀ c ∈ σ pixels, InRange c := fun c hc => hin c (hσ.mem_iff.1 hc)
  have hinit : ∀ c ∈ (σ pixels).take k, InRange c := fun c hc =>
    hsh c (List.mem_of_mem_take hc)
  exact kMeansLoop_inRange (σ pixels) hsh maxIterations _ [] hinit

/-- C1: with k ≥ 1, when the distinct opaque samples number at most k the
result is exactly those samples formatted in order (no clustering); when
they number more than k the result is the k clustered centroids
formatted, hence has length k. -/
theorem extractColors_palette_law (σ : List RGBColor → List RGBColor)
    (data : List Pixel) (k : ℕ)
    (hσ : (σ (samplePixels data)).length = (samplePixels data).length)
    (hk : 1 ≤ k) :
    ((samplePixels data).length ≤ k →
      extractColors σ data k = (samplePixels data).map rgbToHex ∧
      (extractColors σ data k).length = (samplePixels data).length) ∧
    (k < (samplePixels data).length →
      extractColors σ data k = (kMeans σ (samplePixels data) k 100).map rgbToHex ∧
      (extractColors σ data k).length = k) := by
  constructor
  · intro hle
    have he : extractColors σ data k = (samplePixels data).map rgbToHex := by
      unfold extractColors
      rw [if_pos hle]
    exact ⟨he, by rw [he, List.length_map]⟩
  · intro hgt
    have hni : ¬(samplePixels data).length ≤ k := by omega
    have he : extractColors σ data k =
        (kMeans σ (samplePixels data) k 100).map rgbToHex := by
      unfold extractColors
      rw [if_neg hni]
    refine ⟨he, ?_⟩
    rw [he, List.length_map]
    simp only [kMeans]
    rw [kMeansLoop_length, List.length_take, hσ]
    omega

section RatEval

attribute [local semireducible] Rat.add Rat.inv Rat.mul Rat.sub

/-- C2 witness: the sampler postcondition applied to a concrete buffer
with a duplicated opaque color and one translucent pixel. -/
theorem samplePixels_postcondition_witness :
    samplePixels [⟨10, 10, 10, 255⟩, ⟨10, 10, 10, 255⟩, ⟨20, 20, 20, 128⟩] =
      distinctFirstOcc ((([⟨10, 10, 10, 255⟩, ⟨10, 10, 10, 255⟩, ⟨20, 20, 20, 128⟩] :
        List Pixel).filter fun p => p.a == 255).map toRGB) ∧
    (samplePixels [⟨10, 10, 10, 255⟩, ⟨10, 10, 10, 255⟩, ⟨20, 20, 20, 128⟩]).Nodup ∧
    (∀ c, c ∈ samplePixels [⟨10, 10, 10, 255⟩, ⟨10, 10, 10, 255⟩, ⟨20, 20, 20, 128⟩] ↔
      ∃ p ∈ ([⟨10, 10, 10, 255⟩, ⟨10, 10, 10, 255⟩, ⟨20, 20, 20, 128⟩] : List Pixel),
        p.a = 255 ∧ toRGB p = c) ∧
    ((∀ p ∈ ([⟨10, 10, 10, 255⟩, ⟨10, 10, 10, 255⟩, ⟨20, 20, 20, 128⟩] : List Pixel),
        p.a < 255) →
      samplePixels [⟨10, 10, 10, 255⟩, ⟨10, 10, 10, 255⟩, ⟨20, 20, 20, 128⟩] = [] ∧
      ∀ σ k, extractColors σ [⟨10, 10, 10, 255⟩, ⟨10, 10, 10, 255⟩, ⟨20, 20, 20, 128⟩] k = []) :=
  samplePixels_postcondition [⟨10, 10, 10, 255⟩, ⟨10, 10, 10, 255⟩, ⟨20, 20, 20, 128⟩]
    (by decide)

/-- C8 witness: the round-trip theorem applied at the centroid (255,0,0). -/
theorem parse_rgbToHex_roundtrip_witness :
    parseHexColor (rgbToHex ⟨255, 0, 0⟩) =
      some (jsRoundNat 255, jsRoundNat 0, jsRoundNat 0) :=
  parse_rgbToHex_roundtrip ⟨255, 0, 0⟩ (by decide)

/-- C3: `rgbToHex` rounds each channel independently with `Math.round`,
formats each as exactly two zero-padded hex digits in R,G,B order after
`#`, uppercased; with the three concrete values of spec §8. -/
theorem rgbToHex_contract (rgb : RGBColor) (h : InRange rgb) :
    rgbToHex rgb =
      "#" ++ hexByteSpec (jsRoundNat rgb.r) ++ hexByteSpec (jsRoundNat rgb.g) ++
        hexByteSpec (jsRoundNat rgb.b) ∧
    rgbToHex ⟨0, 0, 0⟩ = "#000000" ∧
    rgbToHex ⟨255, 255, 255⟩ = "#FFFFFF" ∧
    rgbToHex ⟨255, 0, 0⟩ = "#FF0000" :=
  ⟨rgbToHex_eq rgb h, by decide, by decide, by decide⟩

/-- C3 witness: the formatter contract applied at the color (255,0,0). -/
theorem rgbToHex_contract_witness :
    rgbToHex ⟨255, 0, 0⟩ =
      "#" ++ hexByteSpec (jsRoundNat 255) ++ hexByteSpec (jsRoundNat 0) ++
        hexByteSpec (jsRoundNat 0) ∧
    rgbToHex ⟨0, 0, 0⟩ = "#000000" ∧
    rgbToHex ⟨255, 255, 255⟩ = "#FFFFFF" ∧
    rgbToHex ⟨255, 0, 0⟩ = "#FF0000" :=
  rgbToHex_contract ⟨255, 0, 0⟩ (by decide)

-- concrete evaluations of the formatter model
example : rgbToHex ⟨0, 0, 0⟩ = "#000000" := by decide
example : rgbToHex ⟨255, 255, 255⟩ = "#FFFFFF" := by decide
example : rgbToHex ⟨255, 0, 0⟩ = "#FF0000" := by decide
example : rgbToHex ⟨(764 : ℚ) / 3, 10, 0⟩ = "#FF0A00" := by decide

/-- C4 witness: the iteration bound applied to a concrete two-sample run. -/
theorem kMeans_iteration_bound_witness :
    kMeansIters id [⟨0, 0, 0⟩, ⟨9, 9, 9⟩] 1 100 ≤ 100 ∧
    (kMeansIters id [⟨0, 0, 0⟩, ⟨9, 9, 9⟩] 1 100 < 100 →
      ∃ prev, hasConverged prev (kMeans id [⟨0, 0, 0⟩, ⟨9, 9, 9⟩] 1 100) = true) :=
  kMeans_iteration_bound id [⟨0, 0, 0⟩, ⟨9, 9, 9⟩] 1 100 (by decide) (by decide)
    (by decide)

/-- C5 witness: with two distinct samples, k = 1 and the default cap, at
least one iteration runs. -/
theorem hasConverged_semantics_witness :
    1 ≤ kMeansIters id [⟨0, 0, 0⟩, ⟨50, 50, 50⟩] 1 100 :=
  hasConverged_semantics.2 id [⟨0, 0, 0⟩, ⟨50, 50, 50⟩] 1 100 rfl (by decide)
    (by decide) (by decide) (by decide)

/-- C6 witness: the range invariant applied to the centroid (5,10,15)
actually returned when clustering the two in-range samples with k = 1. -/
theorem kMeans_centroid_range_witness : InRange ⟨5, 10, 15⟩ :=
  kMeans_centroid_range id [⟨0, 0, 0⟩, ⟨10, 20, 30⟩] 1 100 (List.Perm.refl _)
    (by decide) ⟨5, 10, 15⟩ (by decide)

/-- C7 witness: the frame property applied where centroid 1 gets an empty
cluster (both pixels are nearer to centroid 0). -/
theorem stepCentroids_empty_cluster_frame_witness :
    (stepCentroids [⟨10, 10, 10⟩, ⟨20, 20, 20⟩] [⟨0, 0, 0⟩, ⟨255, 255, 255⟩]).length =
      ([⟨0, 0, 0⟩, ⟨255, 255, 255⟩] : List RGBColor).length ∧
    (clusterOf [⟨10, 10, 10⟩, ⟨20, 20, 20⟩] [⟨0, 0, 0⟩, ⟨255, 255, 255⟩] 1 = [] →
      (stepCentroids [⟨10, 10, 10⟩, ⟨20, 20, 20⟩] [⟨0, 0, 0⟩, ⟨255, 255, 255⟩])[1]? =
        some (([⟨0, 0, 0⟩, ⟨255, 255, 255⟩] : List RGBColor)[1])) ∧
    (clusterOf [⟨10, 10, 10⟩, ⟨20, 20, 20⟩] [⟨0, 0, 0⟩, ⟨255, 255, 255⟩] 1 ≠ [] →
      (stepCentroids [⟨10, 10, 10⟩, ⟨20, 20, 20⟩] [⟨0, 0, 0⟩, ⟨255, 255, 255⟩])[1]? =
        some (meanColor
          (clusterOf [⟨10, 10, 10⟩, ⟨20, 20, 20⟩] [⟨0, 0, 0⟩, ⟨255, 255, 255⟩] 1))) :=
  stepCentroids_empty_cluster_frame [⟨10, 10, 10⟩, ⟨20, 20, 20⟩]
    [⟨0, 0, 0⟩, ⟨255, 255, 255⟩] 1 (by decide)

/-- C1 witness: the palette law applied to a two-color buffer with k = 1. -/
theorem extractColors_palette_law_witness :
    ((samplePixels [⟨0, 0, 0, 255⟩, ⟨1, 2, 3, 255⟩]).length ≤ 1 →
      extractColors id [⟨0, 0, 0, 255⟩, ⟨1, 2, 3, 255⟩] 1 =
        (samplePixels [⟨0, 0, 0, 255⟩, ⟨1, 2, 3, 255⟩]).map rgbToHex ∧
      (extractColors id [⟨0, 0, 0, 255⟩, ⟨1, 2, 3, 255⟩] 1).length =
        (samplePixels [⟨0, 0, 0, 255⟩, ⟨1, 2, 3, 255⟩]).length) ∧
    (1 < (samplePixels [⟨0, 0, 0, 255⟩, ⟨1, 2, 3, 255⟩]).length →
      extractColors id [⟨0, 0, 0, 255⟩, ⟨1, 2, 3, 255⟩] 1 =
        (kMeans id (samplePixels [⟨0, 0, 0, 255⟩, ⟨1, 2, 3, 255⟩]) 1 100).map rgbToHex ∧
      (extractColors id [⟨0, 0, 0, 255⟩, ⟨1, 2, 3, 255⟩] 1).length = 1) :=
  extractColors_palette_law id [⟨0, 0, 0, 255⟩, ⟨1, 2, 3, 255⟩] 1 rfl (by decide)

/-- C10 witness: requesting zero colors on a one-opaque-pixel buffer. -/
theorem extractColors_zero_palette_witness :
    extractColors id [⟨5, 6, 7, 255⟩] 0 = [] ∧
    kMeans id (samplePixels [⟨5, 6, 7, 255⟩]) 0 100 = [] ∧
    kMeansIters id (samplePixels [⟨5, 6, 7, 255⟩]) 0 100 = 0 ∧
    hasConverged [] ((id (samplePixels [⟨5, 6, 7, 255⟩])).take 0) = true :=
  extractColors_zero_palette id [⟨5, 6, 7, 255⟩] (by decide)

-- concrete evaluations of the sampler and clustering models
example : samplePixels [⟨10, 10, 10, 255⟩, ⟨20, 20, 20, 0⟩, ⟨10, 10, 10, 255⟩] =
    [⟨10, 10, 10⟩] := by decide
example : extractColors id [⟨10, 10, 10, 255⟩, ⟨20, 20, 20, 255⟩] 6 =
    ["#0A0A0A", "#141414"] := by decide
example : extractColors id
    [⟨255, 0, 0, 255⟩, ⟨250, 0, 0, 255⟩, ⟨0, 0, 255, 255⟩, ⟨0, 0, 250, 255⟩] 2 =
    ["#FD0000", "#0000FD"] := by decide
example : kMeansIters id [⟨255, 0, 0⟩, ⟨250, 0, 0⟩, ⟨0, 0, 255⟩] 2 100 = 3 := by decide
example : kMeansIters id [⟨255, 0, 0⟩, ⟨250, 0, 0⟩, ⟨0, 0, 255⟩] 0 100 = 0 := by decide

end RatEval

end ColorExtract
